import Mathlib

/-!
Shallow embedding of the production-agent control core (guard pipeline,
resilience wrapper, event store, ephemeral pruning, coordinator) with
proofs of its specified properties.  Each embedded definition mirrors one
TypeScript source function; external capabilities (the wrapped fallible
call, JSON serialization/parsing, the file system, the wall clock) are
passed in as explicit parameters.
-/

/-! ## Deterministic guards (patterns/02-deterministic-guards.ts and shared types) -/

namespace Guards

/-- Action representation for guard evaluation (`types.ts`).  `parameters`
is an opaque key/value payload. -/
structure Action where
  type : String
  target : Option String := none
  parameters : Option (List (String × String)) := none
deriving DecidableEq, Repr

/-- Policy for action filtering (`types.ts`).  A `RegExp` tested against
`JSON.stringify(action.parameters || \x7b\x7d)` is a boolean function of the
parameters, so each blocked pattern is modelled as such a predicate. -/
structure Policy where
  blockedTools : List String
  blockedPatterns : List (Option (List (String × String)) → Bool)
  requiresConfirmation : List String
  maxOperations : Option Nat := none

/-- Budget constraints (`types.ts`).  Times are in milliseconds; optional
fields model the optional TypeScript fields, and the JavaScript truthiness
of a number (`0` is falsy) is checked explicitly where the code does. -/
structure Budget where
  maxTokens : Nat
  maxApiCalls : Nat
  maxTimeMs : Option Int := none
  usedTokens : Nat
  usedApiCalls : Nat
  startTime : Option Int := none
deriving DecidableEq, Repr

/-- Result of a guard check (`types.ts`). -/
structure GuardResult where
  allowed : Bool
  reason : Option String := none
  override : Option Bool := none
  requiresConfirmation : Option Bool := none
deriving DecidableEq, Repr

/-- Guard: validate action structure.  In the typed embedding `type` is a
`String`, so the JavaScript falsiness check `!action.type` is the empty
string; `typeof` mismatches cannot occur for typed values. -/
def isValidAction (action : Action) : GuardResult :=
  if action.type = "" then
    { allowed := false, reason := some "Missing or invalid action type" }
  else
    { allowed := true }

/-- Guard: check policy compliance. -/
def isPolicyCompliant (action : Action) (policy : Policy) : GuardResult :=
  if policy.blockedTools.contains action.type then
    { allowed := false
      reason := some ("Action " ++ action.type ++ " is blocked by policy") }
  else if policy.blockedPatterns.any (fun pattern => pattern action.parameters) then
    { allowed := false, reason := some "Arguments contain blocked pattern" }
  else if policy.requiresConfirmation.contains action.type then
    { allowed := true
      requiresConfirmation := some true
      reason := some ("Action " ++ action.type ++ " requires human approval") }
  else
    { allowed := true }

/-- Guard: budget enforcement.  `now` stands for `Date.now()`. -/
def checkBudget (budget : Budget) (now : Int) : GuardResult :=
  if budget.usedTokens ≥ budget.maxTokens then
    { allowed := false, reason := some "Token budget exhausted", override := some true }
  else if budget.usedApiCalls ≥ budget.maxApiCalls then
    { allowed := false, reason := some "API call budget exhausted", override := some true }
  else
    match budget.maxTimeMs, budget.startTime with
    | some maxTimeMs, some startTime =>
      if maxTimeMs ≠ 0 ∧ startTime ≠ 0 then
        if now - startTime ≥ maxTimeMs then
          { allowed := false, reason := some "Time budget exhausted", override := some true }
        else
          { allowed := true }
      else
        { allowed := true }
    | _, _ => { allowed := true }

/-- Composite guard: run all guards in sequence (budget, then structural
validation, then policy), returning the first rejecting result verbatim. -/
def runGuards (action : Action) (policy : Policy) (budget : Budget) (now : Int) : GuardResult :=
  let budgetResult := checkBudget budget now
  if budgetResult.allowed = false then budgetResult
  else
    let validationResult := isValidAction action
    if validationResult.allowed = false then validationResult
    else
      let policyResult := isPolicyCompliant action policy
      if policyResult.allowed = false then policyResult
      else if policyResult.requiresConfirmation.getD false then policyResult
      else { allowed := true }

/-- Specification-side predicate for resource exhaustion, written from the
spec's words for comparison with `checkBudget`: some ledger of the budget is
exhausted (tokens, API calls, or — when a time budget is configured — the
elapsed time since `startTime` reached `maxTimeMs`). -/
def budgetExhaustedSpec (budget : Budget) (now : Int) : Bool :=
  (budget.usedTokens ≥ budget.maxTokens) ||
  (budget.usedApiCalls ≥ budget.maxApiCalls) ||
  (match budget.maxTimeMs, budget.startTime with
   | some maxTimeMs, some startTime =>
     maxTimeMs ≠ 0 && startTime ≠ 0 && (now - startTime ≥ maxTimeMs)
   | _, _ => false)

end Guards

/-! ## Subsumption layers (part_005: `checkAllLayers`) -/

namespace Subsumption

/-- Action shape used by the layered checks (part_005). -/
structure Action where
  type : String
  target : Option String := none
  parameters : Option (List (String × String)) := none
deriving DecidableEq, Repr

/-- Result of one layer's check (part_005 `LayerResult`). -/
structure LayerResult where
  allowed : Bool
  reason : Option String := none
  override : Option Bool := none
deriving DecidableEq, Repr

/-- A prioritized layer: lower `layer` number means higher authority. -/
structure LayerCheck where
  layer : Nat
  name : String
  check : Action → LayerResult

/-- Ordering used by `[...layers].sort((a, b) => a.layer - b.layer)`. -/
def layerLE (a b : LayerCheck) : Prop := a.layer ≤ b.layer

instance : DecidableRel layerLE := fun a b => Nat.decLe a.layer b.layer

instance : IsTotal LayerCheck layerLE := ⟨fun a b => Nat.le_total a.layer b.layer⟩

instance : IsTrans LayerCheck layerLE := ⟨fun _ _ _ => Nat.le_trans⟩

/-- The stable ascending sort performed at the top of `checkAllLayers`
(JavaScript `Array.prototype.sort` is stable; so is insertion sort). -/
def sortLayers (layers : List LayerCheck) : List LayerCheck :=
  List.insertionSort layerLE layers

/-- Result type of `checkAllLayers`. -/
structure CheckAllResult where
  allowed : Bool
  reason : Option String := none
  decidingLayer : Option String := none
deriving DecidableEq, Repr

/-- The evaluation loop of `checkAllLayers` over an already-sorted list:
the first layer whose result has `allowed = false` decides, a layer with
`override` makes a final positive decision, otherwise checking continues. -/
def checkLayersLoop (action : Action) : List LayerCheck → CheckAllResult
  | [] => { allowed := true }
  | l :: rest =>
    let result := l.check action
    if result.allowed = false then
      { allowed := false, reason := result.reason, decidingLayer := some l.name }
    else if result.override.getD false then
      { allowed := true, decidingLayer := some l.name }
    else
      checkLayersLoop action rest

/-- `checkAllLayers` from part_005: sort by layer number, evaluate in order. -/
def checkAllLayers (action : Action) (layers : List LayerCheck) : CheckAllResult :=
  checkLayersLoop action (sortLayers layers)

/-- Call-count instrumentation: the layers whose `check` the loop invokes,
in invocation order. -/
def checkLayersTraceLoop (action : Action) : List LayerCheck → List LayerCheck
  | [] => []
  | l :: rest =>
    let result := l.check action
    if result.allowed = false then [l]
    else if result.override.getD false then [l]
    else l :: checkLayersTraceLoop action rest

/-- The invocation trace of `checkAllLayers`. -/
def checkAllLayersTrace (action : Action) (layers : List LayerCheck) : List LayerCheck :=
  checkLayersTraceLoop action (sortLayers layers)

end Subsumption

/-! ## Retry with exponential backoff (part_002) -/

namespace Retry

/-- Retry configuration (part_002).  Delay fields only influence sleep
durations, never the returned value; `jitterFactor` is a number in 0..1. -/
structure RetryConfig where
  maxAttempts : Nat
  baseDelayMs : Int
  maxDelayMs : Int
  jitterFactor : Rat

/-- `defaultConfig` from part_002. -/
def defaultConfig : RetryConfig :=
  { maxAttempts := 5, baseDelayMs := 1000, maxDelayMs := 30000, jitterFactor := 1/5 }

/-- Substring test over character lists (the semantics of a literal
regular-expression fragment tested against a message). -/
def containsChars (hay needle : List Char) : Bool :=
  hay.tails.any fun t => List.isPrefixOf needle t

/-- Case-sensitive substring test, e.g. `/ECONNRESET/.test(msg)`. -/
def containsSub (hay needle : String) : Bool :=
  containsChars hay.toList needle.toList

/-- Case-insensitive substring test, e.g. `/timeout/i.test(msg)`. -/
def containsCI (hay needle : String) : Bool :=
  containsChars (hay.toList.map Char.toLower) (needle.toList.map Char.toLower)

/-- Is `c` a JavaScript regular-expression line terminator (which `.` does
not match)? -/
def isLineTerminator (c : Char) : Bool :=
  c = '\n' || c = '\r' || c = Char.ofNat 0x2028 || c = Char.ofNat 0x2029

/-- Does `/rate.?limit/` match starting at this position (input already
lower-cased for the `i` flag)? -/
def rateLimitFrom (l : List Char) : Bool :=
  List.isPrefixOf "rate".toList l &&
    (List.isPrefixOf "limit".toList (l.drop 4) ||
      (match l.drop 4 with
       | [] => false
       | c :: rest => !isLineTerminator c && List.isPrefixOf "limit".toList rest))

/-- `/rate.?limit/i.test(msg)`. -/
def rateLimitCI (msg : String) : Bool :=
  (msg.toList.map Char.toLower).tails.any rateLimitFrom

/-- `isRetryable` from part_002: the message is tested against the fixed
pattern list. -/
def isRetryable (message : String) : Bool :=
  containsCI message "timeout" ||
  containsSub message "ECONNRESET" ||
  containsSub message "ETIMEDOUT" ||
  rateLimitCI message ||
  containsSub message "429" ||
  containsSub message "503" ||
  containsSub message "502" ||
  containsSub message "504" ||
  containsCI message "overloaded" ||
  containsCI message "temporarily unavailable"

/-- Specification-side classification written from the claim's words
(timeout, connection-reset, rate-limit, the whole 5xx class, "overloaded"),
for comparison with `isRetryable`.  "The whole 5xx class" is any status
code 500..599 appearing in the message. -/
def mentions5xx (msg : String) : Bool :=
  (List.range 100).any fun k =>
    containsSub msg (String.mk ['5', Char.ofNat (48 + k / 10 % 10), Char.ofNat (48 + k % 10)])

/-- Specification-side retryability from the claim's words. -/
def claimRetryableSpec (msg : String) : Bool :=
  containsCI msg "timeout" ||
  containsSub msg "ECONNRESET" ||
  containsSub msg "ETIMEDOUT" ||
  rateLimitCI msg ||
  mentions5xx msg ||
  containsCI msg "overloaded"

/-- The classification list of the amended claim, in the code's order:
timeout, ECONNRESET, ETIMEDOUT, rate-limit, the specific status substrings
429/503/502/504, "overloaded", and "temporarily unavailable". -/
def amendedRetryableSpec (msg : String) : Bool :=
  containsCI msg "timeout" ||
  containsSub msg "ECONNRESET" ||
  containsSub msg "ETIMEDOUT" ||
  rateLimitCI msg ||
  containsSub msg "429" ||
  containsSub msg "503" ||
  containsSub msg "502" ||
  containsSub msg "504" ||
  containsCI msg "overloaded" ||
  containsCI msg "temporarily unavailable"

/-- The retry loop of `withRetry`.  The wrapped asynchronous call is
modelled as `fn : Nat → Except String T` giving each attempt's outcome
(error values are the error messages); the result pairs the returned or
thrown value with the number of attempts made.  A thrown value of `none`
models the `throw lastError` with `lastError = null` (only reachable when
`maxAttempts = 0`).  Backoff sleeps affect timing only and are elided. -/
def withRetryGo (fn : Nat → Except String T) (maxAttempts : Nat)
    (attempt : Nat) (lastError : Option String) : Except (Option String) T × Nat :=
  if _h : attempt < maxAttempts then
    match fn attempt with
    | Except.ok v => (Except.ok v, attempt + 1)
    | Except.error e =>
      if isRetryable e then
        withRetryGo fn maxAttempts (attempt + 1) (some e)
      else
        (Except.error (some e), attempt + 1)
  else
    (Except.error lastError, attempt)
termination_by maxAttempts - attempt
decreasing_by omega

/-- `withRetry` from part_002: the value returned or thrown. -/
def withRetry (fn : Nat → Except String T) (config : RetryConfig) : Except (Option String) T :=
  (withRetryGo fn config.maxAttempts 0 none).1

/-- Number of attempts `withRetry` makes (invocations of `fn`). -/
def withRetryCalls (fn : Nat → Except String T) (config : RetryConfig) : Nat :=
  (withRetryGo fn config.maxAttempts 0 none).2

end Retry

/-! ## Circuit breaker (patterns/06-tool-validation.ts) -/

namespace Breaker

/-- `CircuitState` from 06-tool-validation.ts. -/
inductive CircuitState where
  | closed
  | open'
  | half_open
deriving DecidableEq, Repr

/-- Circuit-breaker configuration. -/
structure CircuitBreakerConfig where
  failureThreshold : Nat
  successThreshold : Nat
  openDurationMs : Int
deriving DecidableEq, Repr

/-- `defaultConfig` from 06-tool-validation.ts. -/
def defaultConfig : CircuitBreakerConfig :=
  { failureThreshold := 5, successThreshold := 2, openDurationMs := 30000 }

/-- The circuit breaker's mutable fields, with their initializers. -/
structure CircuitBreaker where
  state : CircuitState := CircuitState.closed
  failures : Nat := 0
  successes : Nat := 0
  lastFailureTime : Int := 0
  config : CircuitBreakerConfig
deriving DecidableEq, Repr

/-- Outcome of the wrapped call `fn` (if it is invoked). -/
inductive ExecOutcome (ε τ : Type) where
  | ok (v : τ)
  | err (e : ε)
deriving DecidableEq, Repr

/-- Result of `execute`: fail-fast without invoking `fn`, or the value
returned or thrown by `fn`. -/
inductive ExecResult (ε τ : Type) where
  | circuitOpen
  | ok (v : τ)
  | err (e : ε)
deriving DecidableEq, Repr

/-- `onSuccess`: reset the failure count; in half-open, count successes
and close once `successThreshold` is reached. -/
def CircuitBreaker.onSuccess (cb : CircuitBreaker) : CircuitBreaker :=
  let cb := { cb with failures := 0 }
  match cb.state with
  | CircuitState.half_open =>
    let cb := { cb with successes := cb.successes + 1 }
    if cb.successes ≥ cb.config.successThreshold then
      { cb with state := CircuitState.closed }
    else cb
  | _ => cb

/-- `onFailure`: count the failure and record its time; any half-open
failure reopens, and a closed breaker opens at `failureThreshold`. -/
def CircuitBreaker.onFailure (cb : CircuitBreaker) (now : Int) : CircuitBreaker :=
  let cb := { cb with failures := cb.failures + 1, lastFailureTime := now }
  match cb.state with
  | CircuitState.half_open => { cb with state := CircuitState.open' }
  | CircuitState.closed =>
    if cb.failures ≥ cb.config.failureThreshold then
      { cb with state := CircuitState.open' }
    else cb
  | _ => cb

/-- The body of the `try` block once `fn` is invoked. -/
def runCall (cb : CircuitBreaker) (now : Int) (outcome : ExecOutcome ε τ) :
    ExecResult ε τ × CircuitBreaker :=
  match outcome with
  | ExecOutcome.ok v => (ExecResult.ok v, cb.onSuccess)
  | ExecOutcome.err e => (ExecResult.err e, cb.onFailure now)

/-- `execute(fn)`: perform the open-to-half-open time transition if due,
fail fast while still open (without invoking `fn`), otherwise invoke `fn`
and update the state from its outcome.  `now` is `Date.now()` and
`outcome` the behavior of `fn` when invoked. -/
def CircuitBreaker.execute (cb : CircuitBreaker) (now : Int)
    (outcome : ExecOutcome ε τ) : ExecResult ε τ × CircuitBreaker :=
  match cb.state with
  | CircuitState.open' =>
    if now - cb.lastFailureTime ≥ cb.config.openDurationMs then
      runCall { cb with state := CircuitState.half_open, successes := 0 } now outcome
    else
      (ExecResult.circuitOpen, cb)
  | _ => runCall cb now outcome

end Breaker

/-! ## Ephemeral messages (patterns/03-ephemeral-messages.ts) -/

namespace Ephemeral

/-- Message role in 03-ephemeral-messages.ts. -/
inductive MessageRole where
  | user
  | assistant
  | tool
deriving DecidableEq, Repr

/-- A conversation message; `ephemeral` and `timestamp` are optional. -/
structure Message where
  role : MessageRole
  content : String
  ephemeral : Option Bool := none
  timestamp : Option Int := none
deriving DecidableEq, Repr

/-- Pruning configuration; `maxAge` is optional and, being a JavaScript
number, falsy when `0`. -/
structure EphemeralConfig where
  keepLast : Nat
  maxAge : Option Int := none
deriving DecidableEq, Repr

/-- JavaScript truthiness of the optional `ephemeral` flag. -/
def isEphemeral (m : Message) : Bool :=
  m.ephemeral.getD false

/-- Does a message survive the age filter?  `true` whenever no (truthy)
`maxAge` is configured; otherwise `(m.timestamp ?? 0) > now - maxAge`. -/
def passesAge (config : EphemeralConfig) (now : Int) (m : Message) : Bool :=
  match config.maxAge with
  | some maxAge => if maxAge = 0 then true else decide (m.timestamp.getD 0 > now - maxAge)
  | none => true

/-- `arr.slice(-k)` on an array: for `k = 0` this is `slice(0)`, the whole
array (`-0 === 0`); for `k > 0` it is the last `min k len` elements. -/
def jsSliceLast (l : List α) (k : Nat) : List α :=
  if k = 0 then l else l.drop (l.length - k)

/-- `pruneEphemeral` from 03-ephemeral-messages.ts.  JavaScript object
identity of array elements (the `Set` built from `kept` is queried by
reference) is modelled by pairing every message with its index via `enum`:
distinct array slots are distinct references. -/
def pruneEphemeral (messages : List Message) (config : EphemeralConfig)
    (now : Int) : List Message :=
  let indexed := messages.enum
  let ephemeralPairs := indexed.filter fun p => isEphemeral p.2
  let filtered :=
    match config.maxAge with
    | some maxAge =>
      if maxAge ≠ 0 then
        ephemeralPairs.filter fun p => decide (p.2.timestamp.getD 0 > now - maxAge)
      else ephemeralPairs
    | none => ephemeralPairs
  let kept := jsSliceLast filtered config.keepLast
  let keptIdx := kept.map Prod.fst
  (indexed.filter fun p => !isEphemeral p.2 || keptIdx.contains p.1).map Prod.snd

/-- The indexed ephemeral messages that survive pruning (the `kept` list
of `pruneEphemeral`, with the age filter expressed via `passesAge`). -/
def ephemeralKeptPairs (messages : List Message) (config : EphemeralConfig)
    (now : Int) : List (Nat × Message) :=
  jsSliceLast
    ((messages.enum.filter fun p => isEphemeral p.2).filter
      fun p => passesAge config now p.2)
    config.keepLast

end Ephemeral

/-! ## Event-sourced state (patterns/08-event-sourced-state.ts) -/

namespace EventSourced

/-- The discriminated payload of an `AgentEvent` (everything except the
`timestamp` that `append` assigns); opaque `unknown` values are modelled
as strings. -/
inductive AgentEventData where
  | tool_called (tool : String) (arguments : List (String × String))
  | tool_result (tool : String) (result : String) (success : Bool)
  | state_changed (key : String) (oldValue : Option String) (newValue : Option String)
  | error_occurred (error : String) (stack : Option String)
deriving DecidableEq, Repr

/-- A stored event: payload plus the timestamp `append` stamped on it.
This factoring mirrors `Omit<AgentEvent, 'timestamp'>`. -/
structure AgentEvent where
  data : AgentEventData
  timestamp : Int
deriving DecidableEq, Repr

/-- The event store's state: the in-memory list and the optional
persistence path. -/
structure EventStore where
  events : List AgentEvent := []
  persistPath : Option String := none
deriving DecidableEq, Repr

/-- `persist`: the file content written (all events, one serialized per
line, joined by newlines), or `none` when no path is configured.
`serialize` stands for `JSON.stringify`, an external builtin. -/
def EventStore.persist (store : EventStore) (serialize : AgentEvent → String) : Option String :=
  match store.persistPath with
  | some _ => some (String.intercalate "\n" (store.events.map serialize))
  | none => none

/-- `append`: stamp the current time on the event, push it, and (when a
persistence path is configured) flush before returning.  The returned pair
is the updated store and the flushed file content (`none` when nothing is
written); the TypeScript method itself returns `void`. -/
def EventStore.append (store : EventStore) (event : AgentEventData) (now : Int)
    (serialize : AgentEvent → String) : EventStore × Option String :=
  let fullEvent : AgentEvent := { data := event, timestamp := now }
  let store := { store with events := store.events ++ [fullEvent] }
  (store, store.persist serialize)

/-- Repeated `append`, used to state the insertion-order law. -/
def EventStore.appendAll (store : EventStore) (items : List (AgentEventData × Int))
    (serialize : AgentEvent → String) : EventStore :=
  items.foldl (fun s item => (s.append item.1 item.2 serialize).1) store

/-- Split a character list at every occurrence of `sep`, like
`text.split(sep)` in JavaScript. -/
def splitOnChar (sep : Char) : List Char → List (List Char)
  | [] => [[]]
  | c :: rest =>
    match splitOnChar sep rest with
    | [] => [[c]]
    | acc :: accs => if c = sep then [] :: acc :: accs else (c :: acc) :: accs

/-- `text.split('\n')`. -/
def splitLines (text : String) : List String :=
  (splitOnChar (Char.ofNat 10) text.toList).map fun cs => String.mk cs

/-- Is the line blank, i.e. is `line.trim()` falsy (the empty string)?
Whitespace here is the ASCII whitespace that `trim` strips. -/
def isBlank (line : String) : Bool :=
  line.toList.all fun c =>
    c = ' ' || c = Char.ofNat 9 || c = Char.ofNat 10 || c = Char.ofNat 13 ||
      c = Char.ofNat 11 || c = Char.ofNat 12

/-- The body of `load`'s `try` block: read the file (`content = none`
models a failed `readFile`, e.g. a missing file), split into lines, drop
blank lines, and parse every remaining line; the first line on which
`JSON.parse` throws (`parse` returns `none`) aborts with that exception.
`parse` stands for `JSON.parse`, an external builtin. -/
def EventStore.loadRaw (store : EventStore) (parse : String → Option AgentEvent)
    (content : Option String) : Except String EventStore :=
  match store.persistPath with
  | none => Except.ok store
  | some _ =>
    match content with
    | none => Except.error "readFile failed"
    | some text =>
      match ((splitLines text).filter fun line => !isBlank line).mapM parse with
      | some events => Except.ok { store with events := events }
      | none => Except.error "JSON parse error"

/-- `load` from 08-event-sourced-state.ts: the `catch \x7b\x7d` swallows every
exception of the `try` block — a missing file, but also a `JSON.parse`
failure — leaving the previous in-memory events in place and returning
normally. -/
def EventStore.load (store : EventStore) (parse : String → Option AgentEvent)
    (content : Option String) : EventStore :=
  match store.loadRaw parse content with
  | Except.ok s => s
  | Except.error _ => store

end EventSourced

/-! ## Coordinator (part_004) -/

namespace Coordinator

/-- Task priority. -/
inductive Priority where
  | high
  | normal
  | low
deriving DecidableEq, Repr

/-- A root task. -/
structure Task where
  id : String
  description : String
  priority : Option Priority := none
deriving DecidableEq, Repr

/-- Subtask type, which determines the execution phase. -/
inductive SubtaskType where
  | analysis
  | implementation
  | review
  | test
deriving DecidableEq, Repr

/-- A subtask produced by decomposition. -/
structure Subtask where
  id : String
  description : String
  priority : Option Priority := none
  parentId : String
  type : SubtaskType
deriving DecidableEq, Repr

/-- Worker metrics. -/
structure Metrics where
  durationMs : Int
  tokensUsed : Option Nat := none
deriving DecidableEq, Repr

/-- Result produced for one subtask. -/
structure WorkerResult where
  subtaskId : String
  success : Bool
  output : String
  metrics : Option Metrics := none
deriving DecidableEq, Repr

/-- Aggregated result for the root task. -/
structure CoordinatorResult where
  taskId : String
  success : Bool
  summary : String
  subtaskResults : List WorkerResult
  totalDurationMs : Int
deriving DecidableEq, Repr

/-- The `order` table in `groupByPhase` (`{analysis: 0, implementation: 1,
review: 2, test: 3}`; the `?? 1` fallback is unreachable for typed
subtasks). -/
def order : SubtaskType → Nat
  | SubtaskType.analysis => 0
  | SubtaskType.implementation => 1
  | SubtaskType.review => 2
  | SubtaskType.test => 3

/-- One step of filling the phase map: `Map` iteration order is insertion
order, and `phases.get(phase)!.push(subtask)` appends to the bucket. -/
def insertPhase : List (Nat × List Subtask) → Nat → Subtask → List (Nat × List Subtask)
  | [], key, st => [(key, [st])]
  | (key', bucket) :: rest, key, st =>
    if key' = key then (key', bucket ++ [st]) :: rest
    else (key', bucket) :: insertPhase rest key st

/-- Ordering for `Array.from(phases.entries()).sort((a, b) => a[0] - b[0])`. -/
def phaseLE (a b : Nat × List Subtask) : Prop := a.1 ≤ b.1

instance : DecidableRel phaseLE := fun a b => Nat.decLe a.1 b.1

instance : IsTotal (Nat × List Subtask) phaseLE := ⟨fun a b => Nat.le_total a.1 b.1⟩

instance : IsTrans (Nat × List Subtask) phaseLE := ⟨fun _ _ _ => Nat.le_trans⟩

/-- `groupByPhase`: bucket subtasks by their type's phase number, then
order the phases ascending. -/
def groupByPhase (subtasks : List Subtask) : List (List Subtask) :=
  let phases := subtasks.foldl (fun acc st => insertPhase acc (order st.type) st) []
  (List.insertionSort phaseLE phases).map Prod.snd

/-- `executeSubtask`: run the worker (modelled by `exec`, with `Except`
errors for thrown exceptions) and wrap the outcome; `dur` supplies the
measured duration. -/
def executeSubtask (exec : Subtask → Except String String) (dur : Subtask → Int)
    (st : Subtask) : WorkerResult :=
  match exec st with
  | Except.ok output =>
    { subtaskId := st.id, success := true, output := output
      metrics := some { durationMs := dur st } }
  | Except.error msg =>
    { subtaskId := st.id, success := false, output := msg
      metrics := some { durationMs := dur st } }

/-- `delegate`: execute every phase in order, collecting every subtask's
result; failures only produce a console warning and never stop later
phases. -/
def delegate (exec : Subtask → Except String String) (dur : Subtask → Int)
    (subtasks : List Subtask) : List WorkerResult :=
  ((groupByPhase subtasks).map fun phase => phase.map (executeSubtask exec dur)).flatten

/-- `aggregate`: overall success iff no failed result; all results are
reported. -/
def aggregate (task : Task) (results : List WorkerResult) : CoordinatorResult :=
  let successful := results.filter fun r => r.success
  let failed := results.filter fun r => !r.success
  let totalDuration :=
    results.foldl (fun sum r => sum + ((r.metrics.map Metrics.durationMs).getD 0)) 0
  let summary :=
    if failed.length = 0 then
      "Successfully completed " ++ toString successful.length ++ " subtasks"
    else
      "Completed " ++ toString successful.length ++ "/" ++ toString results.length ++
        " subtasks. Failures: " ++ String.intercalate ", " (failed.map fun f => f.subtaskId)
  { taskId := task.id
    success := failed.length == 0
    summary := summary
    subtaskResults := results
    totalDurationMs := totalDuration }

end Coordinator

/-! ## Helper lemmas: circuit breaker -/

namespace Breaker

/-- `onSuccess` always leaves the failure count at zero. -/
theorem onSuccess_failures (cb : CircuitBreaker) : cb.onSuccess.failures = 0 := by
  unfold CircuitBreaker.onSuccess
  cases cb.state
  · rfl
  · rfl
  · dsimp only
    split <;> rfl

/-- When the breaker is not open, `execute` invokes the call directly. -/
theorem execute_not_open {ε τ : Type} (cb : CircuitBreaker) (now : Int)
    (o : ExecOutcome ε τ) (h : cb.state ≠ CircuitState.open') :
    cb.execute now o = runCall cb now o := by
  unfold CircuitBreaker.execute
  cases hs : cb.state
  · rfl
  · exact absurd hs h
  · rfl

/-- While open and before `openDurationMs` has elapsed, `execute` fails
fast and leaves the breaker untouched. -/
theorem execute_open_cold {ε τ : Type} (cb : CircuitBreaker) (now : Int)
    (o : ExecOutcome ε τ) (h : cb.state = CircuitState.open')
    (ht : ¬ now - cb.lastFailureTime ≥ cb.config.openDurationMs) :
    cb.execute now o = (ExecResult.circuitOpen, cb) := by
  unfold CircuitBreaker.execute
  rw [h]
  simp [ht]

/-- While open and once `openDurationMs` has elapsed, `execute` moves to
half-open (resetting the success count) and invokes the call. -/
theorem execute_open_due {ε τ : Type} (cb : CircuitBreaker) (now : Int)
    (o : ExecOutcome ε τ) (h : cb.state = CircuitState.open')
    (ht : now - cb.lastFailureTime ≥ cb.config.openDurationMs) :
    cb.execute now o =
      runCall { cb with state := CircuitState.half_open, successes := 0 } now o := by
  unfold CircuitBreaker.execute
  rw [h]
  simp [ht]

end Breaker

/-- Claim C4: with `failureThreshold = 3` and `successThreshold = 2`,
starting closed, three consecutive failed calls open the breaker; an
`execute` before `openDurationMs` has elapsed fails fast without invoking
the call and leaves the breaker unchanged; the first `execute` after
`openDurationMs` has elapsed moves to half-open and invokes the call; two
consecutive successes in half-open close the breaker; a single failure in
half-open reopens it immediately and records the failure time. -/
theorem circuit_breaker_threshold_scenario (ε τ : Type)
    (D t1 t2 t3 n4 n5 n5' n6 : Int) (v v2 : τ) (e : ε)
    (cb0 cb1 cb2 cb3 : Breaker.CircuitBreaker)
    (hcb0 : cb0 = { config := { failureThreshold := 3, successThreshold := 2, openDurationMs := D } })
    (hcb1 : cb1 = (cb0.execute t1 (Breaker.ExecOutcome.err e : Breaker.ExecOutcome ε τ)).2)
    (hcb2 : cb2 = (cb1.execute t2 (Breaker.ExecOutcome.err e : Breaker.ExecOutcome ε τ)).2)
    (hcb3 : cb3 = (cb2.execute t3 (Breaker.ExecOutcome.err e : Breaker.ExecOutcome ε τ)).2)
    (h4 : n4 - t3 < D) (h5 : n5 - t3 ≥ D) (h5' : n5' - t3 ≥ D) :
    (cb3.state = Breaker.CircuitState.open' ∧ cb3.lastFailureTime = t3) ∧
    (∀ o : Breaker.ExecOutcome ε τ,
      cb3.execute n4 o = (Breaker.ExecResult.circuitOpen, cb3)) ∧
    ((cb3.execute n5 (Breaker.ExecOutcome.ok v : Breaker.ExecOutcome ε τ)).1 =
        Breaker.ExecResult.ok v ∧
      (cb3.execute n5 (Breaker.ExecOutcome.ok v : Breaker.ExecOutcome ε τ)).2.state =
        Breaker.CircuitState.half_open) ∧
    (((cb3.execute n5 (Breaker.ExecOutcome.ok v : Breaker.ExecOutcome ε τ)).2.execute n6
        (Breaker.ExecOutcome.ok v2 : Breaker.ExecOutcome ε τ)).2.state =
        Breaker.CircuitState.closed) ∧
    ((cb3.execute n5' (Breaker.ExecOutcome.err e : Breaker.ExecOutcome ε τ)).2.state =
        Breaker.CircuitState.open' ∧
      (cb3.execute n5' (Breaker.ExecOutcome.err e : Breaker.ExecOutcome ε τ)).2.lastFailureTime =
        n5') := by
  subst hcb0
  have e1 : cb1 =
      { state := Breaker.CircuitState.closed
        failures := 1
        successes := 0
        lastFailureTime := t1
        config := { failureThreshold := 3, successThreshold := 2, openDurationMs := D } } := by
    rw [hcb1]
    simp [Breaker.CircuitBreaker.execute, Breaker.runCall, Breaker.CircuitBreaker.onFailure]
  have e2 : cb2 =
      { state := Breaker.CircuitState.closed
        failures := 2
        successes := 0
        lastFailureTime := t2
        config := { failureThreshold := 3, successThreshold := 2, openDurationMs := D } } := by
    rw [hcb2, e1]
    simp [Breaker.CircuitBreaker.execute, Breaker.runCall, Breaker.CircuitBreaker.onFailure]
  have e3 : cb3 =
      { state := Breaker.CircuitState.open'
        failures := 3
        successes := 0
        lastFailureTime := t3
        config := { failureThreshold := 3, successThreshold := 2, openDurationMs := D } } := by
    rw [hcb3, e2]
    simp [Breaker.CircuitBreaker.execute, Breaker.runCall, Breaker.CircuitBreaker.onFailure]
  subst e3
  refine ⟨⟨rfl, rfl⟩, ?_, ?_, ?_, ?_⟩
  · intro o
    exact Breaker.execute_open_cold _ _ _ rfl (by simpa using not_le.mpr h4)
  · rw [Breaker.execute_open_due _ _ _ rfl (by simpa using h5)]
    constructor
    · rfl
    · simp [Breaker.runCall, Breaker.CircuitBreaker.onSuccess]
  · have hfirst : (Breaker.CircuitBreaker.execute
        { state := Breaker.CircuitState.open'
          failures := 3
          successes := 0
          lastFailureTime := t3
          config := { failureThreshold := 3, successThreshold := 2, openDurationMs := D } }
        n5 (Breaker.ExecOutcome.ok v : Breaker.ExecOutcome ε τ)).2 =
        { state := Breaker.CircuitState.half_open
          failures := 0
          successes := 1
          lastFailureTime := t3
          config := { failureThreshold := 3, successThreshold := 2, openDurationMs := D } } := by
      rw [Breaker.execute_open_due _ _ _ rfl (by simpa using h5)]
      simp [Breaker.runCall, Breaker.CircuitBreaker.onSuccess]
    rw [hfirst]
    rw [Breaker.execute_not_open _ _ _ (by simp)]
    simp [Breaker.runCall, Breaker.CircuitBreaker.onSuccess]
  · rw [Breaker.execute_open_due _ _ _ rfl (by simpa using h5')]
    constructor
    · simp [Breaker.runCall, Breaker.CircuitBreaker.onFailure]
    · simp [Breaker.runCall, Breaker.CircuitBreaker.onFailure]

/-- Witness for C4 at concrete inputs. -/
theorem circuit_breaker_threshold_scenario_witness :
    ∃ cb3 : Breaker.CircuitBreaker,
      cb3.state = Breaker.CircuitState.open' ∧ cb3.lastFailureTime = 2 := by
  obtain ⟨⟨hstate, htime⟩, -, -, -, -⟩ :=
    circuit_breaker_threshold_scenario Nat Nat 10 0 1 2 5 12 13 20 1 2 7
      { config := { failureThreshold := 3, successThreshold := 2, openDurationMs := 10 } }
      _ _ _ rfl rfl rfl rfl (by decide) (by decide) (by decide)
  exact ⟨_, hstate, htime⟩

/-- Claim C10: whenever `execute` actually invokes the wrapped call and it
resolves successfully, the resulting failure count is 0, in every state —
only consecutive failures with no intervening success can accumulate to
`failureThreshold`. -/
theorem success_resets_failure_count (ε τ : Type) (cb : Breaker.CircuitBreaker)
    (now : Int) (v : τ)
    (h : (cb.execute now (Breaker.ExecOutcome.ok v : Breaker.ExecOutcome ε τ)).1 =
      Breaker.ExecResult.ok v) :
    (cb.execute now (Breaker.ExecOutcome.ok v : Breaker.ExecOutcome ε τ)).2.failures = 0 := by
  by_cases hs : cb.state = Breaker.CircuitState.open'
  · by_cases ht : now - cb.lastFailureTime ≥ cb.config.openDurationMs
    · rw [Breaker.execute_open_due _ _ _ hs ht]
      exact Breaker.onSuccess_failures _
    · rw [Breaker.execute_open_cold _ _ _ hs ht] at h
      exact absurd h (by simp)
  · rw [Breaker.execute_not_open _ _ _ hs]
    exact Breaker.onSuccess_failures _

/-- Witness for C10 at a concrete input. -/
theorem success_resets_failure_count_witness :
    (Breaker.CircuitBreaker.execute
      { state := Breaker.CircuitState.closed
        failures := 2
        successes := 0
        lastFailureTime := 0
        config := { failureThreshold := 3, successThreshold := 2, openDurationMs := 10 } }
      5 (Breaker.ExecOutcome.ok 1 : Breaker.ExecOutcome Nat Nat)).2.failures = 0 :=
  success_resets_failure_count Nat Nat _ 5 1 (by decide)

/-- Claim C9: `checkBudget` returns `allowed = false` with `override = true`
exactly when some ledger is exhausted — `usedTokens ≥ maxTokens`, or
`usedApiCalls ≥ maxApiCalls`, or (when a time budget is configured, i.e.
both `maxTimeMs` and `startTime` are present and truthy) the elapsed time
since `startTime` reached `maxTimeMs`; otherwise it returns
`allowed = true`. -/
theorem check_budget_exhaustion_spec (b : Guards.Budget) (t : Int) :
    (((Guards.checkBudget b t).allowed = false ∧
        (Guards.checkBudget b t).override = some true) ↔
      Guards.budgetExhaustedSpec b t = true) ∧
    (Guards.budgetExhaustedSpec b t = false →
      Guards.checkBudget b t = { allowed := true }) := by
  obtain ⟨maxTok, maxCalls, maxTime, usedTok, usedCalls, start⟩ := b
  cases maxTime <;> cases start <;>
    simp [Guards.checkBudget, Guards.budgetExhaustedSpec] <;>
    split_ifs <;> simp_all

/-- Witness for C9 at a concrete input: a budget with exhausted API calls. -/
theorem check_budget_exhaustion_spec_witness :
    Guards.checkBudget
      { maxTokens := 10, maxApiCalls := 5, maxTimeMs := some 1000
        usedTokens := 3, usedApiCalls := 2, startTime := some 1 } 500 =
      { allowed := true } :=
  (check_budget_exhaustion_spec _ 500).2 (by decide)

/-! ## Helper lemmas: event store -/

namespace EventSourced

/-- Repeated appends extend the log in insertion order. -/
theorem appendAll_events (f : AgentEvent → String) :
    ∀ (items : List (AgentEventData × Int)) (s : EventStore),
      (s.appendAll items f).events =
        s.events ++ items.map fun item => { data := item.1, timestamp := item.2 } := by
  intro items
  induction items with
  | nil => intro s; simp [EventStore.appendAll]
  | cons item rest ih =>
    intro s
    have hstep : s.appendAll (item :: rest) f =
        ((s.append item.1 item.2 f).1).appendAll rest f := rfl
    rw [hstep, ih]
    simp [EventStore.append]

end EventSourced

/-- Claim C3 (the code violates it): a persisted log whose single line
fails to parse makes the `try` body of `load` throw, but the `catch`
swallows the exception, so `load` returns normally with the previous
in-memory events unchanged instead of failing loudly. -/
theorem load_swallows_unparseable_line :
    EventSourced.EventStore.loadRaw
      { events := [{ data := EventSourced.AgentEventData.error_occurred "previous" none
                     timestamp := 1 }]
        persistPath := some "events.log" }
      (fun _ => none) (some "not json") = Except.error "JSON parse error" ∧
    EventSourced.EventStore.load
      { events := [{ data := EventSourced.AgentEventData.error_occurred "previous" none
                     timestamp := 1 }]
        persistPath := some "events.log" }
      (fun _ => none) (some "not json") =
      { events := [{ data := EventSourced.AgentEventData.error_occurred "previous" none
                     timestamp := 1 }]
        persistPath := some "events.log" } := by
  constructor <;> rfl

/-- Counterexample to claim C2: appending the same payload twice at the
same clock reading stores two completely identical events — `append`
assigns no sequence number (the timestamp is the only number it assigns,
and it ties), so the stored events are not totally ordered by any
monotonically increasing per-event number. -/
theorem append_no_sequence_number_counterexample :
    ((EventSourced.EventStore.append
        (EventSourced.EventStore.append
          { events := [], persistPath := some "events.log" }
          (EventSourced.AgentEventData.error_occurred "boom" none) 5 (fun _ => "x")).1
        (EventSourced.AgentEventData.error_occurred "boom" none) 5 (fun _ => "x")).1).events =
      [{ data := EventSourced.AgentEventData.error_occurred "boom" none, timestamp := 5 },
       { data := EventSourced.AgentEventData.error_occurred "boom" none, timestamp := 5 }] := by
  rfl

/-- Claim C2 as amended: `append` takes an event without a timestamp,
assigns the current timestamp, appends it at the end (so stored events are
totally ordered by insertion order), and — when a persistence target is
configured — synchronously rewrites the whole serialized log (one event
per line) before returning; it returns no value and assigns no sequence
number. -/
theorem append_assigns_timestamp_and_flushes (s : EventSourced.EventStore)
    (d : EventSourced.AgentEventData) (t : Int)
    (f : EventSourced.AgentEvent → String) :
    ((s.append d t f).1.events = s.events ++ [{ data := d, timestamp := t }]) ∧
    ((s.append d t f).1.persistPath = s.persistPath) ∧
    (∀ p : String, s.persistPath = some p →
      (s.append d t f).2 =
        some (String.intercalate "\n"
          ((s.events ++
            [({ data := d, timestamp := t } : EventSourced.AgentEvent)]).map f))) ∧
    (s.persistPath = none → (s.append d t f).2 = none) ∧
    (∀ items : List (EventSourced.AgentEventData × Int),
      (s.appendAll items f).events =
        s.events ++ items.map fun item => { data := item.1, timestamp := item.2 }) := by
  refine ⟨rfl, rfl, ?_, ?_, fun items => EventSourced.appendAll_events f items s⟩
  · intro p hp
    simp [EventSourced.EventStore.append, EventSourced.EventStore.persist, hp]
  · intro hp
    simp [EventSourced.EventStore.append, EventSourced.EventStore.persist, hp]

/-- Witness for the amended C2 at a concrete input. -/
theorem append_assigns_timestamp_and_flushes_witness :
    (EventSourced.EventStore.append { events := [], persistPath := some "log" }
      (EventSourced.AgentEventData.error_occurred "e" none) 7 (fun _ => "E")).2 =
      some "E" := by
  have h := (append_assigns_timestamp_and_flushes
    { events := [], persistPath := some "log" }
    (EventSourced.AgentEventData.error_occurred "e" none) 7 (fun _ => "E")).2.2.1 "log" rfl
  simpa using h

/-- Claim C6 (the code violates it at `keepLast = 0`): `slice(-0)` is
`slice(0)`, so with `keepLast = 0` every remaining ephemeral message is
kept instead of none. -/
theorem prune_keep_last_zero_keeps_all :
    Ephemeral.pruneEphemeral
      [{ role := Ephemeral.MessageRole.tool, content := "output"
         ephemeral := some true, timestamp := some 100 }]
      { keepLast := 0 } 500 =
      [{ role := Ephemeral.MessageRole.tool, content := "output"
         ephemeral := some true, timestamp := some 100 }] ∧
    Ephemeral.isEphemeral
      { role := Ephemeral.MessageRole.tool, content := "output"
        ephemeral := some true, timestamp := some 100 } = true := by
  constructor <;> rfl

/-! ## Helper lemmas: retry -/

namespace Retry

/-- A retryable error consumes the attempt and the loop continues. -/
theorem withRetryGo_step {T : Type} (fn : Nat → Except String T) (m i : Nat)
    (last : Option String) (e : String) (hi : i < m) (he : fn i = Except.error e)
    (hr : isRetryable e = true) :
    withRetryGo fn m i last = withRetryGo fn m (i + 1) (some e) := by
  rw [withRetryGo.eq_def]
  rw [dif_pos hi, he]
  simp [hr]

/-- A successful attempt returns its value. -/
theorem withRetryGo_ok {T : Type} (fn : Nat → Except String T) (m i : Nat)
    (last : Option String) (v : T) (hi : i < m) (he : fn i = Except.ok v) :
    withRetryGo fn m i last = (Except.ok v, i + 1) := by
  rw [withRetryGo.eq_def]
  rw [dif_pos hi, he]

/-- A non-retryable error is rethrown at once. -/
theorem withRetryGo_stop {T : Type} (fn : Nat → Except String T) (m i : Nat)
    (last : Option String) (e : String) (hi : i < m) (he : fn i = Except.error e)
    (hr : isRetryable e = false) :
    withRetryGo fn m i last = (Except.error (some e), i + 1) := by
  rw [withRetryGo.eq_def]
  rw [dif_pos hi, he]
  simp [hr]

/-- Once the attempt budget is exhausted the last error is thrown. -/
theorem withRetryGo_exhausted {T : Type} (fn : Nat → Except String T) (m i : Nat)
    (last : Option String) (hi : ¬ i < m) :
    withRetryGo fn m i last = (Except.error last, i) := by
  rw [withRetryGo.eq_def]
  rw [dif_neg hi]

/-- After `k` retryable failures, a non-retryable error at attempt `i + k`
is rethrown as is, after exactly `i + k + 1` attempts. -/
theorem withRetryGo_nonretryable {T : Type} (fn : Nat → Except String T) (m : Nat) :
    ∀ (k i : Nat) (last : Option String) (e : String), i + k < m →
      (∀ j, j < k → ∃ ej, fn (i + j) = Except.error ej ∧ isRetryable ej = true) →
      fn (i + k) = Except.error e → isRetryable e = false →
      withRetryGo fn m i last = (Except.error (some e), i + k + 1) := by
  intro k
  induction k with
  | zero =>
    intro i last e hm _hall he hr
    simpa using withRetryGo_stop fn m i last e (by omega) (by simpa using he) hr
  | succ k ih =>
    intro i last e hm hall he hr
    obtain ⟨e0, he0, hr0⟩ := hall 0 (Nat.succ_pos k)
    rw [withRetryGo_step fn m i last e0 (by omega) (by simpa using he0) hr0]
    have h1 : (i + 1) + k < m := by omega
    have h2 : ∀ j, j < k → ∃ ej, fn ((i + 1) + j) = Except.error ej ∧ isRetryable ej = true := by
      intro j hj
      obtain ⟨ej, hej, hrj⟩ := hall (j + 1) (by omega)
      exact ⟨ej, by rw [show i + 1 + j = i + (j + 1) by omega]; exact hej, hrj⟩
    have h3 : fn ((i + 1) + k) = Except.error e := by
      rw [show i + 1 + k = i + (k + 1) by omega]
      exact he
    have := ih (i + 1) (some e0) e h1 h2 h3 hr
    rw [this]
    congr 1
    omega

/-- When every attempt from `i` on fails retryably, the loop exhausts all
`m` attempts and throws the error of the last one. -/
theorem withRetryGo_all_retryable {T : Type} (fn : Nat → Except String T) (m : Nat) :
    ∀ (d i : Nat) (last : Option String), m = i + d → 0 < d →
      (∀ j, i ≤ j → j < m → ∃ ej, fn j = Except.error ej ∧ isRetryable ej = true) →
      ∃ elast, fn (m - 1) = Except.error elast ∧
        withRetryGo fn m i last = (Except.error (some elast), m) := by
  intro d
  induction d with
  | zero => intro i last _hm hd; omega
  | succ k ih =>
    intro i last hm _hd hall
    obtain ⟨e0, he0, hr0⟩ := hall i (Nat.le_refl i) (by omega)
    by_cases hk : k = 0
    · subst hk
      refine ⟨e0, by rw [show m - 1 = i by omega]; exact he0, ?_⟩
      rw [withRetryGo_step fn m i last e0 (by omega) he0 hr0]
      rw [withRetryGo_exhausted fn m (i + 1) (some e0) (by omega)]
      rw [show i + 1 = m by omega]
    · rw [withRetryGo_step fn m i last e0 (by omega) he0 hr0]
      exact ih (i + 1) (some e0) (by omega) (by omega)
        (fun j hij hjm => hall j (by omega) hjm)

end Retry

/-- Counterexample to claim C5: the retryable classification is not
"the whole 5xx class" — the message "server returned 500" is in the 5xx
class but classified non-retryable — and it additionally includes the
signal "temporarily unavailable", which the claim's list omits. -/
theorem retry_classification_counterexample :
    Retry.isRetryable "server returned 500" = false ∧
    Retry.claimRetryableSpec "server returned 500" = true ∧
    Retry.isRetryable "service temporarily unavailable" = true ∧
    Retry.claimRetryableSpec "service temporarily unavailable" = false := by
  refine ⟨?_, ?_, ?_, ?_⟩ <;> rfl

/-- Claim C5 as amended: an attempt failing with a non-retryable error
rethrows that same error immediately, after the earlier retryable
failures' attempts plus this one and no more; when every one of
`maxAttempts ≥ 1` attempts fails retryably, the error of the last attempt
is thrown after exactly `maxAttempts` attempts; and the retryable
classification is exactly the code's signal list — timeout,
ECONNRESET/ETIMEDOUT, rate-limit, the status substrings 429/503/502/504,
"overloaded", and "temporarily unavailable" (not the whole 5xx class). -/
theorem with_retry_behavior (T : Type) (fn : Nat → Except String T)
    (c : Retry.RetryConfig) :
    (∀ (k : Nat) (e : String), k < c.maxAttempts →
      (∀ j, j < k → ∃ ej, fn j = Except.error ej ∧ Retry.isRetryable ej = true) →
      fn k = Except.error e → Retry.isRetryable e = false →
      Retry.withRetry fn c = Except.error (some e) ∧
        Retry.withRetryCalls fn c = k + 1) ∧
    (0 < c.maxAttempts →
      (∀ j, j < c.maxAttempts → ∃ ej, fn j = Except.error ej ∧ Retry.isRetryable ej = true) →
      ∃ elast, fn (c.maxAttempts - 1) = Except.error elast ∧
        Retry.withRetry fn c = Except.error (some elast) ∧
        Retry.withRetryCalls fn c = c.maxAttempts) ∧
    (∀ msg, Retry.isRetryable msg = Retry.amendedRetryableSpec msg) := by
  refine ⟨?_, ?_, fun _ => rfl⟩
  · intro k e hk hall he hr
    have := Retry.withRetryGo_nonretryable fn c.maxAttempts k 0 none e
      (by omega) (by simpa using hall) (by simpa using he) hr
    constructor
    · show (Retry.withRetryGo fn c.maxAttempts 0 none).1 = _
      rw [this]
    · show (Retry.withRetryGo fn c.maxAttempts 0 none).2 = _
      rw [this]
      simp
  · intro hpos hall
    obtain ⟨elast, hlast, hgo⟩ := Retry.withRetryGo_all_retryable fn c.maxAttempts
      c.maxAttempts 0 none (Nat.zero_add c.maxAttempts).symm hpos
      (fun j _ hjm => hall j hjm)
    refine ⟨elast, hlast, ?_, ?_⟩
    · show (Retry.withRetryGo fn c.maxAttempts 0 none).1 = _
      rw [hgo]
    · show (Retry.withRetryGo fn c.maxAttempts 0 none).2 = _
      rw [hgo]

/-- Witness for the amended C5 at a concrete input: a first-attempt
non-retryable error propagates immediately with exactly one attempt. -/
theorem with_retry_behavior_witness :
    Retry.withRetry (fun _ => (Except.error "fatal" : Except String Nat))
      { maxAttempts := 3, baseDelayMs := 1000, maxDelayMs := 30000, jitterFactor := 1/5 } =
      Except.error (some "fatal") ∧
    Retry.withRetryCalls (fun _ => (Except.error "fatal" : Except String Nat))
      { maxAttempts := 3, baseDelayMs := 1000, maxDelayMs := 30000, jitterFactor := 1/5 } = 1 :=
  (with_retry_behavior Nat (fun _ => Except.error "fatal")
    { maxAttempts := 3, baseDelayMs := 1000, maxDelayMs := 30000, jitterFactor := 1/5 }).1
    0 "fatal" (by decide) (fun j hj => absurd hj (by omega)) rfl rfl

/-! ## Helper lemmas: subsumption pipeline -/

namespace Subsumption

/-- The invocation trace is a prefix of the list being evaluated. -/
theorem checkLayersTraceLoop_front (a : Action) :
    ∀ l : List LayerCheck, checkLayersTraceLoop a l <+: l := by
  intro l
  induction l with
  | nil => exact ⟨[], rfl⟩
  | cons x xs ih =>
    unfold checkLayersTraceLoop
    dsimp only
    split
    · exact ⟨xs, rfl⟩
    · split
      · exact ⟨xs, rfl⟩
      · obtain ⟨r, hr⟩ := ih
        exact ⟨r, by rw [List.cons_append, hr]⟩

/-- When the loop rejects, the trace ends at the first rejecting layer,
whose reason and name are returned, and every earlier invoked layer
allowed without override. -/
theorem checkLayersLoop_reject (a : Action) :
    ∀ l : List LayerCheck, (checkLayersLoop a l).allowed = false →
      ∃ t d, checkLayersTraceLoop a l = t ++ [d] ∧ (d.check a).allowed = false ∧
        checkLayersLoop a l =
          { allowed := false, reason := (d.check a).reason, decidingLayer := some d.name } ∧
        ∀ x ∈ t, (x.check a).allowed = true ∧ (x.check a).override.getD false = false := by
  intro l
  induction l with
  | nil => intro h; simp [checkLayersLoop] at h
  | cons x xs ih =>
    intro h
    by_cases hx : (x.check a).allowed = false
    · refine ⟨[], x, ?_, hx, ?_, by simp⟩
      · unfold checkLayersTraceLoop
        simp [hx]
      · unfold checkLayersLoop
        simp [hx]
    · have hx' : (x.check a).allowed = true := by
        cases hval : (x.check a).allowed
        · exact absurd hval hx
        · rfl
      by_cases ho : (x.check a).override.getD false = true
      · exfalso
        unfold checkLayersLoop at h
        simp [hx', ho] at h
      · have ho' : (x.check a).override.getD false = false := by
          cases hval : (x.check a).override.getD false
          · rfl
          · exact absurd hval ho
        have hrec : (checkLayersLoop a xs).allowed = false := by
          unfold checkLayersLoop at h
          simpa [hx', ho'] using h
        obtain ⟨t, d, htr, hd, hres, hall⟩ := ih hrec
        refine ⟨x :: t, d, ?_, hd, ?_, ?_⟩
        · unfold checkLayersTraceLoop
          simp [hx', ho', htr]
        · unfold checkLayersLoop
          simpa [hx', ho'] using hres
        · intro y hy
          rcases List.mem_cons.mp hy with hy | hy
          · subst hy; exact ⟨hx', ho'⟩
          · exact hall y hy

/-- When every layer allows, the loop allows. -/
theorem checkLayersLoop_allow (a : Action) :
    ∀ l : List LayerCheck, (∀ x ∈ l, (x.check a).allowed = true) →
      (checkLayersLoop a l).allowed = true := by
  intro l
  induction l with
  | nil => intro _; rfl
  | cons x xs ih =>
    intro h
    have hx : (x.check a).allowed = true := h x (List.mem_cons_self x xs)
    unfold checkLayersLoop
    dsimp only
    rw [hx]
    simp only [Bool.true_eq_false, if_false]
    split
    · rfl
    · exact ih fun y hy => h y (List.mem_cons_of_mem x hy)

/-- The sorted list is pairwise ordered by layer number. -/
theorem sortLayers_pairwise (layers : List LayerCheck) :
    List.Pairwise layerLE (sortLayers layers) :=
  List.sorted_insertionSort layerLE layers

/-- The sorted list is a permutation of the input. -/
theorem sortLayers_perm (layers : List LayerCheck) :
    List.Perm (sortLayers layers) layers :=
  List.perm_insertionSort layerLE layers

end Subsumption

/-- Claim C1: for every guard set and action, evaluation proceeds in
ascending priority order — strictly ascending when priorities are
pairwise distinct — the first rejecting guard decides: its `reason` is
returned verbatim with `allowed = false` and its name as the deciding
layer, every guard invoked before it allowed without override, and no
guard of higher priority number than the decider is ever invoked; if no
guard rejects, the result is `allowed = true`.  For the fixed-order
`runGuards` pipeline the first rejecting guard's entire result is
returned verbatim. -/
theorem guard_pipeline_subsumption :
    (∀ (a : Subsumption.Action) (layers : List Subsumption.LayerCheck),
      List.Pairwise (fun p q => p ≤ q)
        ((Subsumption.checkAllLayersTrace a layers).map fun l => l.layer) ∧
      ((layers.map fun l => l.layer).Nodup →
        List.Pairwise (fun p q => p < q)
          ((Subsumption.checkAllLayersTrace a layers).map fun l => l.layer)) ∧
      ((Subsumption.checkAllLayers a layers).allowed = false →
        ∃ t d, Subsumption.checkAllLayersTrace a layers = t ++ [d] ∧ d ∈ layers ∧
          (d.check a).allowed = false ∧
          Subsumption.checkAllLayers a layers =
            { allowed := false, reason := (d.check a).reason
              decidingLayer := some d.name } ∧
          (∀ x ∈ t, (x.check a).allowed = true ∧ (x.check a).override.getD false = false) ∧
          (∀ x ∈ Subsumption.checkAllLayersTrace a layers, x.layer ≤ d.layer)) ∧
      ((∀ l ∈ layers, (l.check a).allowed = true) →
        (Subsumption.checkAllLayers a layers).allowed = true)) ∧
    (∀ (a : Guards.Action) (p : Guards.Policy) (b : Guards.Budget) (t : Int),
      ((Guards.checkBudget b t).allowed = false →
        Guards.runGuards a p b t = Guards.checkBudget b t) ∧
      ((Guards.checkBudget b t).allowed = true → (Guards.isValidAction a).allowed = false →
        Guards.runGuards a p b t = Guards.isValidAction a) ∧
      ((Guards.checkBudget b t).allowed = true → (Guards.isValidAction a).allowed = true →
        (Guards.isPolicyCompliant a p).allowed = false →
        Guards.runGuards a p b t = Guards.isPolicyCompliant a p) ∧
      ((Guards.checkBudget b t).allowed = true → (Guards.isValidAction a).allowed = true →
        (Guards.isPolicyCompliant a p).allowed = true →
        (Guards.runGuards a p b t).allowed = true)) := by
  constructor
  · intro a layers
    have hpre : Subsumption.checkAllLayersTrace a layers <+: Subsumption.sortLayers layers :=
      Subsumption.checkLayersTraceLoop_front a (Subsumption.sortLayers layers)
    have hpsorted : List.Pairwise Subsumption.layerLE (Subsumption.sortLayers layers) :=
      Subsumption.sortLayers_pairwise layers
    have hptrace : List.Pairwise Subsumption.layerLE (Subsumption.checkAllLayersTrace a layers) :=
      List.Pairwise.sublist hpre.sublist hpsorted
    have hmapped : List.Pairwise (fun p q => p ≤ q)
        ((Subsumption.checkAllLayersTrace a layers).map fun l => l.layer) :=
      List.Pairwise.map _ (fun _ _ hab => hab) hptrace
    refine ⟨hmapped, ?_, ?_, ?_⟩
    · intro hnd
      have hsub : ((Subsumption.checkAllLayersTrace a layers).map fun l => l.layer).Sublist
          ((Subsumption.sortLayers layers).map fun l => l.layer) :=
        hpre.sublist.map _
      have hperm : List.Perm ((Subsumption.sortLayers layers).map fun l => l.layer)
          (layers.map fun l => l.layer) :=
        (Subsumption.sortLayers_perm layers).map _
      have hndsorted : ((Subsumption.sortLayers layers).map fun l => l.layer).Nodup :=
        hperm.nodup_iff.mpr hnd
      have hndtrace : ((Subsumption.checkAllLayersTrace a layers).map fun l => l.layer).Nodup :=
        hndsorted.sublist hsub
      exact (hmapped.and hndtrace).imp fun hab => lt_of_le_of_ne hab.1 hab.2
    · intro h
      obtain ⟨t, d, htr, hd, hres, hall⟩ :=
        Subsumption.checkLayersLoop_reject a (Subsumption.sortLayers layers) h
      have htrace : Subsumption.checkAllLayersTrace a layers = t ++ [d] := htr
      have hdmem : d ∈ layers := by
        have hdtr : d ∈ Subsumption.checkAllLayersTrace a layers := by
          rw [htrace]
          exact List.mem_append_right t (List.mem_singleton_self d)
        exact (Subsumption.sortLayers_perm layers).mem_iff.mp
          (hpre.sublist.subset hdtr)
      refine ⟨t, d, htrace, hdmem, hd, hres, hall, ?_⟩
      intro x hx
      have hpx : List.Pairwise Subsumption.layerLE (t ++ [d]) := htrace ▸ hptrace
      rw [htrace] at hx
      rcases List.mem_append.mp hx with hx | hx
      · exact (List.pairwise_append.mp hpx).2.2 x hx d (List.mem_singleton_self d)
      · rw [List.mem_singleton.mp hx]
    · intro h
      exact Subsumption.checkLayersLoop_allow a (Subsumption.sortLayers layers)
        fun x hx => h x ((Subsumption.sortLayers_perm layers).subset hx)
  · intro a p b t
    refine ⟨?_, ?_, ?_, ?_⟩
    · intro hb
      unfold Guards.runGuards
      simp [hb]
    · intro hb hv
      unfold Guards.runGuards
      simp [hb, hv]
    · intro hb hv hp
      unfold Guards.runGuards
      simp [hb, hv, hp]
    · intro hb hv hp
      unfold Guards.runGuards
      simp only [hb, hv, hp]
      simp
      split
      · exact hp
      · rfl

/-- Witness for C1 at concrete inputs: an all-allowing two-layer set is
approved, and an exhausted budget's rejection is returned verbatim by
`runGuards`. -/
theorem guard_pipeline_subsumption_witness :
    (Subsumption.checkAllLayers { type := "read_file" }
      [{ layer := 1, name := "resources", check := fun _ => { allowed := true } },
       { layer := 0, name := "safety", check := fun _ => { allowed := true } }]).allowed =
      true ∧
    Guards.runGuards { type := "read_file" }
      { blockedTools := [], blockedPatterns := [], requiresConfirmation := [] }
      { maxTokens := 10, maxApiCalls := 5, usedTokens := 10, usedApiCalls := 0 } 5 =
      Guards.checkBudget
        { maxTokens := 10, maxApiCalls := 5, usedTokens := 10, usedApiCalls := 0 } 5 :=
  ⟨(guard_pipeline_subsumption.1 { type := "read_file" }
      [{ layer := 1, name := "resources", check := fun _ => { allowed := true } },
       { layer := 0, name := "safety", check := fun _ => { allowed := true } }]).2.2.2
      (by decide),
    (guard_pipeline_subsumption.2 { type := "read_file" }
      { blockedTools := [], blockedPatterns := [], requiresConfirmation := [] }
      { maxTokens := 10, maxApiCalls := 5, usedTokens := 10, usedApiCalls := 0 } 5).1
      (by decide)⟩

/-! ## Helper lemmas: ephemeral pruning -/

namespace Ephemeral

/-- Filtering on the message component commutes with projecting it. -/
theorem filter_snd_map_snd (g : Message → Bool) :
    ∀ l : List (Nat × Message),
      ((l.filter fun p => g p.2).map Prod.snd) = (l.map Prod.snd).filter g := by
  intro l
  induction l with
  | nil => rfl
  | cons p rest ih =>
    by_cases h : g p.2 <;> simp [h, ih]

/-- The indices of `messages.enum` are strictly increasing. -/
theorem enum_pairwise_fst (messages : List Message) :
    List.Pairwise (fun p q : Nat × Message => p.1 < q.1) messages.enum := by
  have h : List.Pairwise (fun a b : Nat => a < b) (messages.enum.map Prod.fst) := by
    have he : messages.enum.map Prod.fst = List.range' 0 messages.length :=
      List.enumFrom_map_fst 0 messages
    rw [he]
    exact List.pairwise_lt_range' 0 messages.length
  exact List.pairwise_map.mp h

/-- Members of `messages.enum` carry members of `messages`. -/
theorem snd_mem_of_mem_enum {messages : List Message} {p : Nat × Message}
    (h : p ∈ messages.enum) : p.2 ∈ messages := by
  have hm : p.2 ∈ messages.enum.map Prod.snd := List.mem_map_of_mem Prod.snd h
  rw [show messages.enum = List.enumFrom 0 messages from rfl] at hm
  rwa [List.enumFrom_map_snd 0 messages] at hm

/-- `jsSliceLast` yields a sublist. -/
theorem jsSliceLast_sublist (l : List (Nat × Message)) (k : Nat) :
    (jsSliceLast l k).Sublist l := by
  unfold jsSliceLast
  split
  · exact List.Sublist.refl l
  · exact List.drop_sublist _ l

/-- For `k ≠ 0`, `jsSliceLast` keeps at most `k` elements. -/
theorem jsSliceLast_length_le (l : List (Nat × Message)) (k : Nat) (hk : k ≠ 0) :
    (jsSliceLast l k).length ≤ k := by
  unfold jsSliceLast
  rw [if_neg hk, List.length_drop]
  omega

/-- `jsSliceLast` keeps everything when the list already fits. -/
theorem jsSliceLast_of_le (l : List (Nat × Message)) (k : Nat)
    (h : k = 0 ∨ l.length ≤ k) : jsSliceLast l k = l := by
  unfold jsSliceLast
  rcases h with h | h
  · rw [if_pos h]
  · split
    · rfl
    · rw [Nat.sub_eq_zero_of_le h, List.drop_zero]

/-- Filtering a strictly index-sorted list down to the indices of one of
its sublists recovers exactly that sublist (this is how the `Set` of kept
references behaves). -/
theorem filter_mem_idx_eq_sublist :
    ∀ {l sub : List (Nat × Message)}, sub.Sublist l →
      List.Pairwise (fun p q : Nat × Message => p.1 < q.1) l →
      l.filter (fun p => (sub.map Prod.fst).contains p.1) = sub := by
  intro l sub hsub
  induction hsub with
  | slnil => intro _; rfl
  | @cons sub l2 a hsub ih =>
    intro hp
    have ha : ((sub.map Prod.fst).contains a.1) = false := by
      by_contra hc
      have hmem : a.1 ∈ sub.map Prod.fst := by
        simpa using Bool.of_not_eq_false hc
      obtain ⟨p, hpmem, hpfst⟩ := List.mem_map.mp hmem
      have hpl2 : p ∈ l2 := hsub.subset hpmem
      have := (List.pairwise_cons.mp hp).1 p hpl2
      omega
    rw [List.filter_cons_of_neg (by rw [ha]; simp)]
    exact ih (List.pairwise_cons.mp hp).2
  | @cons₂ sub l2 a hsub ih =>
    intro hp
    have ha : (((a :: sub).map Prod.fst).contains a.1) = true := by simp
    rw [List.filter_cons_of_pos (by simp)]
    congr 1
    have hcongr : ∀ p ∈ l2,
        (((a :: sub).map Prod.fst).contains p.1) =
          ((sub.map Prod.fst).contains p.1) := by
      intro p hpl2
      have hlt := (List.pairwise_cons.mp hp).1 p hpl2
      simp only [List.map_cons, List.contains_cons]
      have : (p.1 == a.1) = false := by
        simp only [beq_eq_false_iff_ne]
        omega
      rw [this]
      simp
    rw [List.filter_congr hcongr]
    exact ih (List.pairwise_cons.mp hp).2

end Ephemeral

namespace Ephemeral

/-- Closed form of `pruneEphemeral`: keep every permanent message and the
ephemeral messages whose index survives in `ephemeralKeptPairs`. -/
theorem pruneEphemeral_eq (messages : List Message) (cfg : EphemeralConfig) (now : Int) :
    pruneEphemeral messages cfg now =
      (messages.enum.filter fun p =>
        !isEphemeral p.2 ||
          ((ephemeralKeptPairs messages cfg now).map Prod.fst).contains p.1).map Prod.snd := by
  cases hma : cfg.maxAge with
  | none =>
    simp only [pruneEphemeral, ephemeralKeptPairs, hma]
    have hq : (messages.enum.filter fun p => isEphemeral p.2).filter
        (fun p => passesAge cfg now p.2) =
        messages.enum.filter fun p => isEphemeral p.2 :=
      List.filter_eq_self.mpr fun p _ => by simp [passesAge, hma]
    rw [hq]
  | some a =>
    by_cases ha : a = 0
    · subst ha
      simp only [pruneEphemeral, ephemeralKeptPairs, hma]
      have hq : (messages.enum.filter fun p => isEphemeral p.2).filter
          (fun p => passesAge cfg now p.2) =
          messages.enum.filter fun p => isEphemeral p.2 :=
        List.filter_eq_self.mpr fun p _ => by simp [passesAge, hma]
      rw [hq]
      simp
    · simp only [pruneEphemeral, ephemeralKeptPairs, hma]
      have hq : (messages.enum.filter fun p => isEphemeral p.2).filter
          (fun p => passesAge cfg now p.2) =
          (messages.enum.filter fun p => isEphemeral p.2).filter
            fun p => decide (p.2.timestamp.getD 0 > now - a) :=
        List.filter_congr fun p _ => by simp [passesAge, hma, ha]
      rw [hq]
      simp [ha]

/-- Pruning never touches the permanent messages (claim C7, second part). -/
theorem prune_filter_not_ephemeral (messages : List Message) (cfg : EphemeralConfig)
    (now : Int) :
    (pruneEphemeral messages cfg now).filter (fun m => !isEphemeral m) =
      messages.filter fun m => !isEphemeral m := by
  rw [pruneEphemeral_eq, ← filter_snd_map_snd, List.filter_filter]
  have hcongr : ∀ p ∈ messages.enum,
      ((!isEphemeral p.2) &&
        (!isEphemeral p.2 ||
          ((ephemeralKeptPairs messages cfg now).map Prod.fst).contains p.1)) =
        (!isEphemeral p.2) := by
    intro p _
    cases h : isEphemeral p.2 <;> simp [h]
  rw [List.filter_congr hcongr,
    filter_snd_map_snd (fun m => !isEphemeral m) messages.enum,
    show messages.enum = List.enumFrom 0 messages from rfl, List.enumFrom_map_snd]

/-- The ephemeral messages surviving pruning are exactly the kept pairs. -/
theorem prune_filter_ephemeral (messages : List Message) (cfg : EphemeralConfig)
    (now : Int) :
    (pruneEphemeral messages cfg now).filter (fun m => isEphemeral m) =
      (ephemeralKeptPairs messages cfg now).map Prod.snd := by
  rw [pruneEphemeral_eq, ← filter_snd_map_snd, List.filter_filter]
  have hcongr : ∀ p ∈ messages.enum,
      ((isEphemeral p.2) &&
        (!isEphemeral p.2 ||
          ((ephemeralKeptPairs messages cfg now).map Prod.fst).contains p.1)) =
        ((((ephemeralKeptPairs messages cfg now).map Prod.fst).contains p.1) &&
          (isEphemeral p.2)) := by
    intro p _
    cases h : isEphemeral p.2 <;> simp [h]
  rw [List.filter_congr hcongr, ← List.filter_filter]
  have hKsub : (ephemeralKeptPairs messages cfg now).Sublist
      (messages.enum.filter fun p => isEphemeral p.2) :=
    (jsSliceLast_sublist _ _).trans (List.filter_sublist _)
  have hpairE : List.Pairwise (fun p q : Nat × Message => p.1 < q.1)
      (messages.enum.filter fun p => isEphemeral p.2) :=
    List.Pairwise.sublist (List.filter_sublist _) (enum_pairwise_fst messages)
  rw [filter_mem_idx_eq_sublist hKsub hpairE]

/-- Every ephemeral message surviving pruning passes the age filter. -/
theorem prune_ephemeral_passes (messages : List Message) (cfg : EphemeralConfig)
    (now : Int) :
    ∀ m ∈ pruneEphemeral messages cfg now,
      isEphemeral m = true → passesAge cfg now m = true := by
  intro m hm heph
  have hmf : m ∈ (pruneEphemeral messages cfg now).filter fun m => isEphemeral m :=
    List.mem_filter.mpr ⟨hm, heph⟩
  rw [prune_filter_ephemeral] at hmf
  obtain ⟨p, hpK, hsnd⟩ := List.mem_map.mp hmf
  have hpF : p ∈ (messages.enum.filter fun p => isEphemeral p.2).filter
      fun p => passesAge cfg now p.2 := (jsSliceLast_sublist _ _).subset hpK
  have hpass := (List.mem_filter.mp hpF).2
  rw [← hsnd]
  simpa using hpass

/-- With a nonzero `keepLast`, at most `keepLast` ephemeral messages
survive pruning. -/
theorem prune_count_le (messages : List Message) (cfg : EphemeralConfig) (now : Int)
    (hk : cfg.keepLast ≠ 0) :
    ((pruneEphemeral messages cfg now).filter fun m => isEphemeral m).length ≤
      cfg.keepLast := by
  rw [prune_filter_ephemeral, List.length_map]
  exact jsSliceLast_length_le _ _ hk

/-- A list whose ephemeral messages all pass the age filter and fit into
`keepLast` (or `keepLast = 0`, which keeps everything) is a fixed point of
pruning. -/
theorem prune_fixed_point (ys : List Message) (cfg : EphemeralConfig) (now : Int)
    (hpass : ∀ m ∈ ys, isEphemeral m = true → passesAge cfg now m = true)
    (hcount : cfg.keepLast = 0 ∨
      ((ys.filter fun m => isEphemeral m).length ≤ cfg.keepLast)) :
    pruneEphemeral ys cfg now = ys := by
  rw [pruneEphemeral_eq]
  have hF : (ys.enum.filter fun p => isEphemeral p.2).filter
      (fun p => passesAge cfg now p.2) = ys.enum.filter fun p => isEphemeral p.2 :=
    List.filter_eq_self.mpr fun p hp =>
      hpass p.2 (snd_mem_of_mem_enum (List.mem_filter.mp hp).1) (List.mem_filter.mp hp).2
  have hlenE : (ys.enum.filter fun p => isEphemeral p.2).length =
      (ys.filter fun m => isEphemeral m).length := by
    calc (ys.enum.filter fun p => isEphemeral p.2).length
        = ((ys.enum.filter fun p => isEphemeral p.2).map Prod.snd).length :=
          (List.length_map _ _).symm
      _ = ((ys.enum.map Prod.snd).filter fun m => isEphemeral m).length := by
          rw [filter_snd_map_snd (fun m => isEphemeral m) ys.enum]
      _ = (ys.filter fun m => isEphemeral m).length := by
          rw [show ys.enum = List.enumFrom 0 ys from rfl, List.enumFrom_map_snd]
  have hK : ephemeralKeptPairs ys cfg now = ys.enum.filter fun p => isEphemeral p.2 := by
    unfold ephemeralKeptPairs
    rw [hF]
    apply jsSliceLast_of_le
    rcases hcount with h | h
    · exact Or.inl h
    · right
      rw [hlenE]
      exact h
  rw [hK]
  have hall : ∀ p ∈ ys.enum,
      (!isEphemeral p.2 ||
        ((ys.enum.filter fun p => isEphemeral p.2).map Prod.fst).contains p.1) = true := by
    intro p hp
    cases he : isEphemeral p.2
    · simp
    · have hpE : p ∈ ys.enum.filter fun p => isEphemeral p.2 :=
        List.mem_filter.mpr ⟨hp, he⟩
      have hidx : p.1 ∈ (ys.enum.filter fun p => isEphemeral p.2).map Prod.fst :=
        List.mem_map_of_mem Prod.fst hpE
      simp [hidx]
  rw [List.filter_eq_self.mpr hall,
    show ys.enum = List.enumFrom 0 ys from rfl, List.enumFrom_map_snd]

end Ephemeral

/-- Claim C7: at a fixed instant, `pruneEphemeral` is idempotent, and the
subsequence of permanent (non-ephemeral) messages in its output is
identical, and identically ordered, to that of its input. -/
theorem prune_idempotent_and_permanent_preserved (messages : List Ephemeral.Message)
    (cfg : Ephemeral.EphemeralConfig) (now : Int) :
    Ephemeral.pruneEphemeral (Ephemeral.pruneEphemeral messages cfg now) cfg now =
      Ephemeral.pruneEphemeral messages cfg now ∧
    (Ephemeral.pruneEphemeral messages cfg now).filter
        (fun m => !Ephemeral.isEphemeral m) =
      messages.filter fun m => !Ephemeral.isEphemeral m := by
  constructor
  · apply Ephemeral.prune_fixed_point
    · exact Ephemeral.prune_ephemeral_passes messages cfg now
    · by_cases hk : cfg.keepLast = 0
      · exact Or.inl hk
      · exact Or.inr (Ephemeral.prune_count_le messages cfg now hk)
  · exact Ephemeral.prune_filter_not_ephemeral messages cfg now

/-! ## Helper lemmas: coordinator -/

namespace Coordinator

/-- Inserting into the phase map adds exactly that subtask to the pooled
contents. -/
theorem insertPhase_flatten_perm :
    ∀ (acc : List (Nat × List Subtask)) (key : Nat) (st : Subtask),
      List.Perm (((insertPhase acc key st).map Prod.snd).flatten)
        (((acc.map Prod.snd).flatten) ++ [st]) := by
  intro acc key st
  induction acc with
  | nil => simp [insertPhase]
  | cons hd rest ih =>
    obtain ⟨key', bucket⟩ := hd
    unfold insertPhase
    by_cases hk : key' = key
    · rw [if_pos hk]
      simp only [List.map_cons, List.flatten_cons]
      rw [List.append_assoc bucket [st] ((rest.map Prod.snd).flatten),
        List.append_assoc bucket ((rest.map Prod.snd).flatten) [st]]
      exact List.Perm.append_left bucket List.perm_append_comm
    · rw [if_neg hk]
      simp only [List.map_cons, List.flatten_cons]
      rw [List.append_assoc bucket ((rest.map Prod.snd).flatten) [st]]
      exact List.Perm.append_left bucket ih

/-- Folding all subtasks into the phase map pools exactly those subtasks. -/
theorem foldl_insertPhase_flatten_perm :
    ∀ (sts : List Subtask) (acc : List (Nat × List Subtask)),
      List.Perm
        (((sts.foldl (fun acc st => insertPhase acc (order st.type) st) acc).map
          Prod.snd).flatten)
        (((acc.map Prod.snd).flatten) ++ sts) := by
  intro sts
  induction sts with
  | nil => intro acc; simp
  | cons st rest ih =>
    intro acc
    have h1 := ih (insertPhase acc (order st.type) st)
    have h2 : List.Perm
        ((((insertPhase acc (order st.type) st).map Prod.snd).flatten) ++ rest)
        ((((acc.map Prod.snd).flatten) ++ [st]) ++ rest) :=
      List.Perm.append_right rest (insertPhase_flatten_perm acc (order st.type) st)
    have h3 : (((acc.map Prod.snd).flatten) ++ [st]) ++ rest =
        ((acc.map Prod.snd).flatten) ++ (st :: rest) := by
      rw [List.append_assoc]
      rfl
    exact h1.trans (h3 ▸ h2)

/-- The phases of `groupByPhase` partition the subtask list (up to the
phase reordering). -/
theorem groupByPhase_flatten_perm (sts : List Subtask) :
    List.Perm ((groupByPhase sts).flatten) sts := by
  unfold groupByPhase
  have hsort : List.Perm
      (List.insertionSort phaseLE
        (sts.foldl (fun acc st => insertPhase acc (order st.type) st) []))
      (sts.foldl (fun acc st => insertPhase acc (order st.type) st) []) :=
    List.perm_insertionSort phaseLE _
  have h1 := (hsort.map Prod.snd).flatten
  have h2 := foldl_insertPhase_flatten_perm sts []
  simpa using h1.trans h2

/-- A worker result always carries its subtask's id, success or not. -/
theorem executeSubtask_subtaskId (exec : Subtask → Except String String)
    (dur : Subtask → Int) (st : Subtask) :
    (executeSubtask exec dur st).subtaskId = st.id := by
  unfold executeSubtask
  cases exec st <;> rfl

end Coordinator

/-- Claim C8: `delegate` executes every subtask (each subtask id appears
exactly once among the results, however worker outcomes fall, so an
earlier phase's failure never suppresses a later phase); `aggregate`
succeeds iff every worker result succeeded and reports exactly the given
results; and the concrete 3-subtask, 2-phase run with exactly one phase-1
failure still dispatches phase 2 and yields `success = false` with exactly
one failed entry. -/
theorem coordinator_partial_failure_aggregation :
    (∀ (exec : Coordinator.Subtask → Except String String)
        (dur : Coordinator.Subtask → Int) (sts : List Coordinator.Subtask),
      List.Perm ((Coordinator.delegate exec dur sts).map fun r => r.subtaskId)
        (sts.map fun st => st.id)) ∧
    (∀ (task : Coordinator.Task) (rs : List Coordinator.WorkerResult),
      ((Coordinator.aggregate task rs).success = true ↔ ∀ r ∈ rs, r.success = true) ∧
      (Coordinator.aggregate task rs).subtaskResults = rs) ∧
    (let s1 : Coordinator.Subtask :=
      { id := "t-a1", description := "d", parentId := "t"
        type := Coordinator.SubtaskType.analysis }
     let s2 : Coordinator.Subtask :=
      { id := "t-a2", description := "d", parentId := "t"
        type := Coordinator.SubtaskType.analysis }
     let s3 : Coordinator.Subtask :=
      { id := "t-impl", description := "d", parentId := "t"
        type := Coordinator.SubtaskType.implementation }
     let exec0 : Coordinator.Subtask → Except String String := fun st =>
       if st.id = "t-a2" then Except.error "boom" else Except.ok "done"
     let rs := Coordinator.delegate exec0 (fun _ => 0) [s1, s2, s3]
     let agg := Coordinator.aggregate { id := "t", description := "root" } rs
     (rs.map fun r => r.subtaskId) = ["t-a1", "t-a2", "t-impl"] ∧
       ((rs.filter fun r => !r.success).map fun r => r.subtaskId) = ["t-a2"] ∧
       agg.success = false ∧ agg.subtaskResults = rs) := by
  refine ⟨?_, ?_, ?_⟩
  · intro exec dur sts
    have h1 : (Coordinator.delegate exec dur sts).map (fun r => r.subtaskId) =
        ((Coordinator.groupByPhase sts).flatten).map fun st => st.id := by
      unfold Coordinator.delegate
      rw [List.map_flatten, List.map_flatten]
      congr 1
      rw [List.map_map]
      apply List.map_congr_left
      intro phase _
      show (phase.map (Coordinator.executeSubtask exec dur)).map (fun r => r.subtaskId) = _
      rw [List.map_map]
      exact List.map_congr_left fun st _ => Coordinator.executeSubtask_subtaskId exec dur st
    rw [h1]
    exact (Coordinator.groupByPhase_flatten_perm sts).map _
  · intro task rs
    constructor
    · show ((rs.filter fun r => !r.success).length == 0) = true ↔ _
      rw [Nat.beq_eq_true_eq, List.length_eq_zero, List.filter_eq_nil_iff]
      constructor
      · intro h r hr
        have := h r hr
        simpa using this
      · intro h r hr
        simp [h r hr]
    · rfl
  · intro s1 s2 s3 exec0 rs agg
    exact ⟨rfl, rfl, rfl, rfl⟩

/-- Witness for C8 at a concrete input: an empty result list aggregates to
success. -/
theorem coordinator_partial_failure_aggregation_witness :
    (Coordinator.aggregate { id := "t", description := "root" } []).success = true :=
  (coordinator_partial_failure_aggregation.2.1 { id := "t", description := "root" } []).1.2
    (by simp)
